import Mathlib

/-!
Verification of the dummy-file generator `src/app.py`.

The program repeats a fixed message string until a target byte size is
reached, truncating the final repetition, and writes one file per size in
1..15 MB into the directory `dummy_files/`.

Shallow embedding conventions:
* Python `str` values are `List Char` (Python strings are sequences of code
  points; slicing and `*` act on code points).  The bytes that reach the
  file are the UTF-8 encoding of the written string (`encode` below models
  `str.encode('utf-8')`; the spec fixes UTF-8 as the file encoding).
* Python `int` is `ℤ` (arbitrary precision).
* Python's true division `int / int` produces the IEEE-754 binary64 value
  nearest to the exact quotient (CPython's `long_true_divide` is correctly
  rounded), and raises `OverflowError` when that quotient's magnitude
  exceeds the binary64 range.  `floatDiv` below models the rounded value
  (exactly, for quotients `q` with `1 ≤ |q| < 2^64`; the fuel of `ilog2`
  limits it above that, and magnitudes below 1 would need subnormal
  handling the program never reaches, since its quotients are either 0 or
  of magnitude `≥ 2^20 / 79`).  `pyTrueDiv` adds the `OverflowError`
  path, and `create_dummy_file_run` is `create_dummy_file` with that
  error propagated; theorems that quantify beyond the sizes 1..15 the
  program uses are stated over the checked model or restricted to the
  regime where the model is exact.
* `math.ceil` of a float is the exact integer ceiling of its value
  (`mathCeil`).
* The filesystem is a map from paths to file contents; `open(_, 'w')`
  followed by a single write replaces the content at the path (`setFile`).
  `os.makedirs(d, exist_ok=True)` on a directory state is `makedirs`.
  `os.path.join` uses the POSIX separator `/`.
-/

/-- Binary logarithm by fueled halving: `lg2 f n` is `⌊log₂ n⌋` for
`1 ≤ n < 2 ^ f`, and the recursion is structural on the fuel so that the
kernel can evaluate it on literals. -/
def lg2 : ℕ → ℕ → ℕ
  | 0, _ => 0
  | f + 1, n => if 2 ≤ n then lg2 f (n / 2) + 1 else 0

/-- Exponent extraction used by the binary64 model: `⌊log₂ n⌋`, valid for
`n < 2 ^ 64`. -/
def ilog2 (n : ℕ) : ℕ := lg2 64 n

/-- Round `n / d` to the nearest integer, ties to even (the IEEE-754
default rounding applied to a nonnegative quotient). -/
def rneDivN (n d : ℕ) : ℕ :=
  if 2 * (n % d) < d then n / d
  else if d < 2 * (n % d) then n / d + 1
  else if n / d % 2 = 0 then n / d else n / d + 1

/-- A finite IEEE-754 binary64 value, denoting `mant * 2 ^ exp / 2 ^ 52`.
The sign lives in `mant`; no normalisation invariant is imposed (the
denotation `F64.toRat` is all the proofs use). -/
structure F64 where
  mant : ℤ
  exp : ℕ

/-- The rational value denoted by a finite binary64 datum. -/
def F64.toRat (x : F64) : ℚ := (x.mant : ℚ) * 2 ^ x.exp / 2 ^ 52

/-- Correctly rounded binary64 division `a / b` for `1 ≤ a / b`: pick the
binade via `⌊a / b⌋`, then round the 53-bit significand to nearest, ties
to even. -/
def posDiv (a b : ℕ) : F64 :=
  let e := ilog2 (a / b)
  ⟨(rneDivN (a * 2 ^ 52) (b * 2 ^ e) : ℕ), e⟩

/-- Python's true division `a / b` of integers (`b` the positive message
byte count), as the binary64 value it returns: zero, or a correctly
rounded positive quotient, or the negation of one (binary64 rounding is
symmetric). -/
def floatDiv (a : ℤ) (b : ℕ) : F64 :=
  if a = 0 then ⟨0, 0⟩
  else if a < 0 then
    let p := posDiv (-a).toNat b
    ⟨-p.mant, p.exp⟩
  else posDiv a.toNat b

/-- `math.ceil` on a binary64 value: the exact integer ceiling of
`mant * 2 ^ exp / 2 ^ 52`, computed as `-((-(mant * 2 ^ exp)) / 2 ^ 52)`
with floor division on `ℤ`. -/
def mathCeil (x : F64) : ℤ := -(-(x.mant * 2 ^ x.exp) / 2 ^ 52)

/-- UTF-8 encoding of one code point (`str.encode('utf-8')`, per
character): 1 to 4 bytes. -/
def encodeChar (c : Char) : List ℕ :=
  let n := c.toNat
  if n < 128 then [n]
  else if n < 2048 then [192 + n / 64, 128 + n % 64]
  else if n < 65536 then [224 + n / 4096, 128 + n / 64 % 64, 128 + n % 64]
  else [240 + n / 262144, 128 + n / 4096 % 64, 128 + n / 64 % 64, 128 + n % 64]

/-- UTF-8 encoding of a string, as its list of bytes:
`message.encode('utf-8')` in `create_dummy_file`. -/
def encode (s : List Char) : List ℕ := s.flatMap encodeChar

/-- The fixed message of `create_dummy_file` (`src/app.py` line 6). -/
def message : String :=
  "This file is generated through python by Mujeeb and Hayyan for Research Report\n"

/-- The message as the sequence of its code points. -/
def messageChars : List Char := message.data

/-- `message_bytes = len(message.encode('utf-8'))` (`src/app.py` line 7). -/
def message_bytes : ℕ := (encode messageChars).length

/-- Python sequence repetition `s * n` for a nonnegative count. -/
def pyRepeat {α : Type} (s : List α) : ℕ → List α
  | 0 => []
  | n + 1 => s ++ pyRepeat s n

/-- Python `s * n` for an `int` count: a nonpositive count yields the
empty string (`Int.toNat` clamps at zero). -/
def pyStrMul (s : List Char) (n : ℤ) : List Char := pyRepeat s n.toNat

/-- Python slice `s[:stop]`: for `stop ≥ 0`, the first `stop` code points
(clamped at the length); a negative `stop` counts from the end, clamped
at zero. -/
def pySlice (s : List Char) (stop : ℤ) : List Char :=
  if 0 ≤ stop then s.take stop.toNat else s.take ((s.length : ℤ) + stop).toNat

/-- The line `create_dummy_file` prints (`src/app.py` line 16):
`f"Created file '{filename}' of size {size_in_mb}MB with repeated message"`. -/
def pyPrint (filename : String) (size_in_mb : ℤ) : String :=
  "Created file '" ++ filename ++ "' of size " ++ toString size_in_mb ++
    "MB with repeated message"

/-- `repetitions = math.ceil(size_in_bytes / message_bytes)`
(`src/app.py` line 10). -/
def repetitionsFor (size_in_bytes : ℤ) : ℤ :=
  mathCeil (floatDiv size_in_bytes message_bytes)

/-- `create_dummy_file(filename, size_in_mb)` (`src/app.py` lines 4-16):
returns the string written to the file and the line printed to stdout. -/
def create_dummy_file (filename : String) (size_in_mb : ℤ) : List Char × String :=
  let size_in_bytes : ℤ := size_in_mb * 1024 * 1024
  let repetitions : ℤ := repetitionsFor size_in_bytes
  let content : List Char := pyStrMul messageChars repetitions
  (pySlice content size_in_bytes, pyPrint filename size_in_mb)

/-- `output_dir = "dummy_files"` (`src/app.py` line 19). -/
def output_dir : String := "dummy_files"

/-- `os.path.join(output_dir, f"dummy_{size}MB.txt")` (`src/app.py`
line 23), with the POSIX separator. -/
def pathFor (size : ℕ) : String := output_dir ++ "/dummy_" ++ toString size ++ "MB.txt"

/-- `range(1, 16)` iterated by `main` (`src/app.py` line 22). -/
def mainSizes : List ℕ := List.range' 1 15

/-- The file writes `main` performs, in order: one per size, path paired
with the written content (`src/app.py` lines 22-24). -/
def mainWrites : List (String × List Char) :=
  mainSizes.map fun size => (pathFor size, (create_dummy_file (pathFor size) (size : ℤ)).1)

/-- The lines `main` prints to stdout, in order. -/
def mainPrints : List String :=
  mainSizes.map fun size => (create_dummy_file (pathFor size) (size : ℤ)).2

/-- `os.makedirs(d, exist_ok=exist_ok)` on a state listing the existing
directories: creating an existing directory errors unless `exist_ok`,
and is a no-op otherwise (`src/app.py` line 20 passes `exist_ok=True`). -/
def makedirs (dirs : List String) (d : String) (exist_ok : Bool) :
    Except String (List String) :=
  if d ∈ dirs then
    (if exist_ok then Except.ok dirs else Except.error ("FileExistsError"))
  else Except.ok (dirs ++ [d])

/-- A filesystem state: contents (a string, written in text mode) by path. -/
def FS : Type := String → Option (List Char)

/-- `open(p, 'w')` followed by one write of `c`: the file at `p` is
created or truncated, so the new state has exactly `c` at `p`. -/
def setFile (fs : FS) (p : String) (c : List Char) : FS :=
  fun q => if q = p then some c else fs q

/-- Apply a list of writes in order (later writes to the same path win). -/
def applyWrites (fs : FS) (l : List (String × List Char)) : FS :=
  l.foldl (fun g pc => setFile g pc.1 pc.2) fs

/-- The effect of `main` on the filesystem contents: all 15 writes, in
order (`src/app.py` lines 18-24). -/
def runProgram (fs : FS) : FS := applyWrites fs mainWrites

/-- The filesystem with no files. -/
def emptyFS : FS := fun _ => none

/-- One step of last-write-wins lookup, used to reason about
`applyWrites` pointwise. -/
def updLast (q : String) (acc : Option (List Char)) (pc : String × List Char) :
    Option (List Char) :=
  if q = pc.1 then some pc.2 else acc

/-- The least quotient magnitude at which binary64 rounding overflows:
`2 ^ 1024 - 2 ^ 970`, the midpoint above the largest finite binary64
value (the tie rounds up to the even candidate `2 ^ 1024`).  Written as
a literal so that kernel evaluation never unfolds a large power; the
lemma `f64OverflowBound_eq` below proves it equal to
`2 ^ 1024 - 2 ^ 970`. -/
def f64OverflowBound : ℕ := 179769313486231580793728971405303415079934132710037826936173778980444968292764750946649017977587207096330286416692887910946555547851940402630657488671505820681908902000708383676273854845817711531764475730270069855571366959622842914819860834936475292719074168444365510704342711559699508093042880177904174497792

/-- The overflow condition of CPython's `int / int` true division: it
raises `OverflowError` exactly when the magnitude of the exact quotient
`a / b` rounds to `2 ^ 1024` or beyond, i.e. when
`|a / b| ≥ 2 ^ 1024 - 2 ^ 970`. -/
def divOverflows (a : ℤ) (b : ℕ) : Prop :=
  b * f64OverflowBound ≤ a.natAbs

instance divOverflowsDec (a : ℤ) (b : ℕ) : Decidable (divOverflows a b) :=
  inferInstanceAs (Decidable (_ ≤ _))

/-- CPython's true division `a / b` including its one error path: the
result is the correctly rounded binary64 quotient (`floatDiv`), except
that a quotient beyond the binary64 range raises `OverflowError`. -/
def pyTrueDiv (a : ℤ) (b : ℕ) : Except String F64 :=
  if divOverflows a b then Except.error ("OverflowError") else Except.ok (floatDiv a b)

/-- `create_dummy_file` including the error Python can raise: the
division `size_in_bytes / message_bytes` at `src/app.py` line 10
overflows for astronomically large `|size_in_mb|`, in which case the
call raises before anything is written or printed; otherwise it behaves
as `create_dummy_file` (which models exactly the non-raising runs). -/
def create_dummy_file_run (filename : String) (size_in_mb : ℤ) :
    Except String (List Char × String) :=
  match pyTrueDiv (size_in_mb * 1024 * 1024) message_bytes with
  | Except.error e => Except.error e
  | Except.ok _ => Except.ok (create_dummy_file filename size_in_mb)

/-! ## Basic facts about the encoding and the message -/

theorem f64OverflowBound_eq : f64OverflowBound = 2 ^ 1024 - 2 ^ 970 := by
  norm_num [f64OverflowBound]

theorem encodeChar_ascii {c : Char} (h : c.toNat < 128) : encodeChar c = [c.toNat] := by
  simp [encodeChar, h]

theorem encode_cons (c : Char) (s : List Char) :
    encode (c :: s) = encodeChar c ++ encode s := rfl

theorem encode_append (s t : List Char) : encode (s ++ t) = encode s ++ encode t := by
  simp [encode]

theorem encode_ascii {s : List Char} (h : ∀ c ∈ s, c.toNat < 128) :
    encode s = s.map Char.toNat := by
  induction s with
  | nil => rfl
  | cons c t ih =>
      rw [encode_cons, encodeChar_ascii (h c (by simp)),
        ih (fun x hx => h x (by simp [hx]))]
      rfl

theorem encode_length_ascii {s : List Char} (h : ∀ c ∈ s, c.toNat < 128) :
    (encode s).length = s.length := by
  rw [encode_ascii h, List.length_map]

theorem encode_take {s : List Char} (h : ∀ c ∈ s, c.toNat < 128) (n : ℕ) :
    encode (s.take n) = (encode s).take n := by
  rw [encode_ascii h, encode_ascii (fun c hc => h c (List.take_subset n s hc)),
    List.map_take]

theorem messageChars_ascii : ∀ c ∈ messageChars, c.toNat < 128 := by decide

theorem messageChars_length : messageChars.length = 79 := by decide

theorem message_bytes_eq : message_bytes = 79 := by decide

theorem pyRepeat_length {α : Type} (s : List α) (n : ℕ) :
    (pyRepeat s n).length = n * s.length := by
  induction n with
  | zero => simp [pyRepeat]
  | succ k ih => simp [pyRepeat, ih, Nat.succ_mul, Nat.add_comm]

theorem pyRepeat_ascii {s : List Char} (h : ∀ c ∈ s, c.toNat < 128) (n : ℕ) :
    ∀ c ∈ pyRepeat s n, c.toNat < 128 := by
  induction n with
  | zero => simp [pyRepeat]
  | succ k ih =>
      intro c hc
      rcases List.mem_append.1 hc with hc' | hc'
      · exact h c hc'
      · exact ih c hc'

theorem pyRepeat_add {α : Type} (s : List α) (a b : ℕ) :
    pyRepeat s (a + b) = pyRepeat s a ++ pyRepeat s b := by
  induction a with
  | zero => simp [pyRepeat]
  | succ k ih => simp [Nat.succ_add, pyRepeat, ih]

/-! ## The content a call to create_dummy_file writes -/

theorem create_content_eq (p : String) (m : ℕ) :
    (create_dummy_file p (m : ℤ)).1 =
      (pyRepeat messageChars (repetitionsFor ((m : ℤ) * 1024 * 1024)).toNat).take
        (m * 1048576) := by
  show pySlice (pyStrMul messageChars (repetitionsFor ((m : ℤ) * 1024 * 1024)))
      ((m : ℤ) * 1024 * 1024) = _
  unfold pySlice pyStrMul
  rw [if_pos (by positivity)]
  have harg : ((m : ℤ) * 1024 * 1024).toNat = m * 1048576 := by
    have : ((m : ℤ) * 1024 * 1024) = ((m * 1048576 : ℕ) : ℤ) := by push_cast; ring
    rw [this, Int.toNat_natCast]
  rw [harg]

theorem create_print_eq (p : String) (z : ℤ) :
    (create_dummy_file p z).2 = pyPrint p z := rfl

/-- C4 as stated (for every positive sizeInMB) is false: at
sizeInMB = 10 ^ 310 the division at `src/app.py` line 10 raises
`OverflowError` (the quotient exceeds the binary64 range), so the call
writes nothing at all. -/
theorem write_overflow_counterexample :
    ((10000000000000000000000000000000000000000000000000000000000000000000000000000000000000000000000000000000000000000000000000000000000000000000000000000000000000000000000000000000000000000000000000000000000000000000000000000000000000000000000000000000000000000000000000000000000000000000000000000000000000000000000 : ℕ) : ℤ) = 10 ^ 310 ∧
    create_dummy_file_run "dummy_files/dummy_1MB.txt" ((10000000000000000000000000000000000000000000000000000000000000000000000000000000000000000000000000000000000000000000000000000000000000000000000000000000000000000000000000000000000000000000000000000000000000000000000000000000000000000000000000000000000000000000000000000000000000000000000000000000000000000000000 : ℕ) : ℤ) =
      Except.error ("OverflowError") := by
  refine ⟨by norm_num, ?_⟩
  have h : divOverflows (((10000000000000000000000000000000000000000000000000000000000000000000000000000000000000000000000000000000000000000000000000000000000000000000000000000000000000000000000000000000000000000000000000000000000000000000000000000000000000000000000000000000000000000000000000000000000000000000000000000000000000000000000 : ℕ) : ℤ) * 1024 * 1024) message_bytes := by decide
  unfold create_dummy_file_run pyTrueDiv
  rw [if_pos h]

/-- C4 (amended): for every positive sizeInMB whose division does not
overflow, the call raises nothing, and the code's character-index slice
`content[:size_in_bytes]` coincides with byte-exact truncation: the
encoding of the written string is exactly the first
`sizeInMB * 1048576` bytes of the encoding of the message concatenated
`repetitions` times.  (For larger sizeInMB, such as `10 ^ 310`, the
division raises `OverflowError` before any write; see the
counterexample.) -/
theorem write_is_byte_truncation (p : String) (m : ℕ) (h : 1 ≤ m)
    (hov : ¬ divOverflows ((m : ℤ) * 1024 * 1024) message_bytes) :
    create_dummy_file_run p (m : ℤ) = Except.ok (create_dummy_file p (m : ℤ)) ∧
    encode (create_dummy_file p (m : ℤ)).1 =
      (encode (pyStrMul messageChars (repetitionsFor ((m : ℤ) * 1024 * 1024)))).take
        (m * 1048576) := by
  constructor
  · unfold create_dummy_file_run pyTrueDiv
    rw [if_neg hov]
  · rw [create_content_eq]
    exact encode_take (pyRepeat_ascii messageChars_ascii _) _

/-- Witness for C4 at sizeInMB = 1. -/
theorem write_is_byte_truncation_witness :
    create_dummy_file_run "dummy_files/dummy_1MB.txt" ((1 : ℕ) : ℤ) =
      Except.ok (create_dummy_file "dummy_files/dummy_1MB.txt" ((1 : ℕ) : ℤ)) ∧
    encode (create_dummy_file "dummy_files/dummy_1MB.txt" ((1 : ℕ) : ℤ)).1 =
      (encode (pyStrMul messageChars
        (repetitionsFor (((1 : ℕ) : ℤ) * 1024 * 1024)))).take (1 * 1048576) :=
  write_is_byte_truncation "dummy_files/dummy_1MB.txt" 1 (by decide) (by decide)

/-! ## The filesystem model: overwriting and last-write-wins lookup -/

theorem applyWrites_apply (l : List (String × List Char)) (fs : FS) (q : String) :
    applyWrites fs l q = l.foldl (updLast q) (fs q) := by
  induction l generalizing fs with
  | nil => rfl
  | cons pc t ih =>
      show applyWrites (setFile fs pc.1 pc.2) t q = t.foldl (updLast q) (updLast q (fs q) pc)
      rw [ih]
      rfl

theorem foldl_updLast_init (l : List (String × List Char)) (q : String)
    (x : Option (List Char)) :
    l.foldl (updLast q) x = (l.foldl (updLast q) none).elim x some := by
  induction l generalizing x with
  | nil => rfl
  | cons pc t ih =>
      show t.foldl (updLast q) (updLast q x pc) =
        (t.foldl (updLast q) (updLast q none pc)).elim x some
      rw [ih (updLast q x pc), ih (updLast q none pc)]
      cases hA : t.foldl (updLast q) none with
      | some c => simp
      | none =>
          unfold updLast
          split <;> simp

theorem runProgram_apply (fs : FS) (q : String) :
    runProgram fs q = (mainWrites.foldl (updLast q) none).elim (fs q) some := by
  rw [runProgram, applyWrites_apply, foldl_updLast_init]

/-- C7: running the generator twice yields the same filesystem state as
running it once (each write replaces the file content, no append), and a
repeated `create_dummy_file` write to the same path with the same size
overwrites with identical content. -/
theorem run_twice_eq_run_once (fs : FS) (p : String) (m : ℤ) :
    runProgram (runProgram fs) = runProgram fs ∧
    setFile (setFile fs p (create_dummy_file p m).1) p (create_dummy_file p m).1 =
      setFile fs p (create_dummy_file p m).1 := by
  constructor
  · funext q
    rw [runProgram_apply, runProgram_apply]
    cases hA : mainWrites.foldl (updLast q) none with
    | some c => simp
    | none => simp
  · funext q
    by_cases h : q = p <;> simp [setFile, h]

/-- C8: creating the output directory with `exist_ok=True` when it
already exists raises no error and leaves the directory list unchanged,
so exactly as many `dummy_files` entries exist afterwards as before. -/
theorem makedirs_existing_noop (dirs : List String) (h : output_dir ∈ dirs) :
    makedirs dirs output_dir true = Except.ok dirs ∧
    ∀ d', makedirs dirs output_dir true = Except.ok d' →
      d'.count output_dir = dirs.count output_dir := by
  refine ⟨by simp [makedirs, h], ?_⟩
  intro d' hd'
  rw [show makedirs dirs output_dir true = Except.ok dirs from by simp [makedirs, h]] at hd'
  cases hd'
  rfl

/-- Witness for C8: a state already holding `dummy_files`. -/
theorem makedirs_existing_noop_witness :
    makedirs ["dummy_files"] output_dir true = Except.ok ["dummy_files"] :=
  (makedirs_existing_noop ["dummy_files"] (by decide)).1

/-- C6: `main` ensures the output directory exists, then writes exactly
the 15 files `dummy_1MB.txt` .. `dummy_15MB.txt` under `dummy_files/`,
one call per size, in ascending order of size. -/
theorem main_structure :
    mainSizes = [1, 2, 3, 4, 5, 6, 7, 8, 9, 10, 11, 12, 13, 14, 15] ∧
    mainWrites.map Prod.fst = mainSizes.map pathFor ∧
    mainSizes.map pathFor =
      ["dummy_files/dummy_1MB.txt", "dummy_files/dummy_2MB.txt",
       "dummy_files/dummy_3MB.txt", "dummy_files/dummy_4MB.txt",
       "dummy_files/dummy_5MB.txt", "dummy_files/dummy_6MB.txt",
       "dummy_files/dummy_7MB.txt", "dummy_files/dummy_8MB.txt",
       "dummy_files/dummy_9MB.txt", "dummy_files/dummy_10MB.txt",
       "dummy_files/dummy_11MB.txt", "dummy_files/dummy_12MB.txt",
       "dummy_files/dummy_13MB.txt", "dummy_files/dummy_14MB.txt",
       "dummy_files/dummy_15MB.txt"] ∧
    ∀ dirs : List String, ∃ dirs', makedirs dirs output_dir true = Except.ok dirs' ∧
      output_dir ∈ dirs' := by
  refine ⟨by decide, ?_, by decide, ?_⟩
  · rw [mainWrites, List.map_map]
    rfl
  · intro dirs
    by_cases h : output_dir ∈ dirs
    · exact ⟨dirs, by simp [makedirs, h], h⟩
    · exact ⟨dirs ++ [output_dir], by simp [makedirs, h], by simp⟩

/-- C9: for each of the 15 files, in order, the program prints exactly
one line of the form
`Created file '<path>' of size <N>MB with repeated message`. -/
theorem main_prints_lines :
    mainPrints =
      ["Created file 'dummy_files/dummy_1MB.txt' of size 1MB with repeated message",
       "Created file 'dummy_files/dummy_2MB.txt' of size 2MB with repeated message",
       "Created file 'dummy_files/dummy_3MB.txt' of size 3MB with repeated message",
       "Created file 'dummy_files/dummy_4MB.txt' of size 4MB with repeated message",
       "Created file 'dummy_files/dummy_5MB.txt' of size 5MB with repeated message",
       "Created file 'dummy_files/dummy_6MB.txt' of size 6MB with repeated message",
       "Created file 'dummy_files/dummy_7MB.txt' of size 7MB with repeated message",
       "Created file 'dummy_files/dummy_8MB.txt' of size 8MB with repeated message",
       "Created file 'dummy_files/dummy_9MB.txt' of size 9MB with repeated message",
       "Created file 'dummy_files/dummy_10MB.txt' of size 10MB with repeated message",
       "Created file 'dummy_files/dummy_11MB.txt' of size 11MB with repeated message",
       "Created file 'dummy_files/dummy_12MB.txt' of size 12MB with repeated message",
       "Created file 'dummy_files/dummy_13MB.txt' of size 13MB with repeated message",
       "Created file 'dummy_files/dummy_14MB.txt' of size 14MB with repeated message",
       "Created file 'dummy_files/dummy_15MB.txt' of size 15MB with repeated message"] := by
  decide

/-! ## Zero and negative sizes -/

theorem posDiv_mant_nonneg (a b : ℕ) : 0 ≤ (posDiv a b).mant := by
  simp [posDiv]

theorem floatDiv_mant_nonpos {a : ℤ} (h : a ≤ 0) (b : ℕ) : (floatDiv a b).mant ≤ 0 := by
  unfold floatDiv
  split
  · simp
  · split
    · simpa using posDiv_mant_nonneg (-a).toNat b
    · omega

theorem mathCeil_nonpos {x : F64} (h : x.mant ≤ 0) : mathCeil x ≤ 0 := by
  unfold mathCeil
  have h1 : (0 : ℤ) ≤ -(x.mant * 2 ^ x.exp) := by
    have : x.mant * 2 ^ x.exp ≤ 0 :=
      mul_nonpos_of_nonpos_of_nonneg h (by positivity)
    omega
  have h2 : (0 : ℤ) ≤ -(x.mant * 2 ^ x.exp) / 2 ^ 52 :=
    Int.ediv_nonneg h1 (by positivity)
  omega

theorem repetitionsFor_nonpos {z : ℤ} (h : z ≤ 0) : repetitionsFor z ≤ 0 :=
  mathCeil_nonpos (floatDiv_mant_nonpos h message_bytes)

/-- C10 as stated (no error for zero or ANY negative sizeInMB) is
false: at sizeInMB = -(10 ^ 310) the division at `src/app.py` line 10
raises `OverflowError` (the quotient's magnitude exceeds the binary64
range), so nothing is written and nothing is printed. -/
theorem negative_overflow_counterexample :
    -((10000000000000000000000000000000000000000000000000000000000000000000000000000000000000000000000000000000000000000000000000000000000000000000000000000000000000000000000000000000000000000000000000000000000000000000000000000000000000000000000000000000000000000000000000000000000000000000000000000000000000000000000 : ℕ) : ℤ) = -(10 ^ 310) ∧
    create_dummy_file_run "dummy_files/dummy_x.txt" (-((10000000000000000000000000000000000000000000000000000000000000000000000000000000000000000000000000000000000000000000000000000000000000000000000000000000000000000000000000000000000000000000000000000000000000000000000000000000000000000000000000000000000000000000000000000000000000000000000000000000000000000000000 : ℕ) : ℤ)) =
      Except.error ("OverflowError") := by
  refine ⟨by norm_num, ?_⟩
  have h : divOverflows (-((10000000000000000000000000000000000000000000000000000000000000000000000000000000000000000000000000000000000000000000000000000000000000000000000000000000000000000000000000000000000000000000000000000000000000000000000000000000000000000000000000000000000000000000000000000000000000000000000000000000000000000000000 : ℕ) : ℤ) * 1024 * 1024) message_bytes := by decide
  unfold create_dummy_file_run pyTrueDiv
  rw [if_pos h]

/-- C10 (amended): for zero or negative sizeInMB whose division does not
overflow, `create_dummy_file` rejects nothing and raises nothing: the
repetition count is nonpositive, so Python's `message * repetitions` is
empty, the written file content is the empty string, and the
confirmation line is still printed with the given path and size.  (For
hugely negative sizeInMB, such as `-(10 ^ 310)`, the division raises
`OverflowError` instead; see the counterexample.) -/
theorem zero_or_negative_size_writes_empty (p : String) (z : ℤ) (h : z ≤ 0)
    (hov : ¬ divOverflows (z * 1024 * 1024) message_bytes) :
    create_dummy_file_run p z = Except.ok (create_dummy_file p z) ∧
    (create_dummy_file p z).1 = [] ∧ (create_dummy_file p z).2 = pyPrint p z := by
  refine ⟨?_, ?_, rfl⟩
  · unfold create_dummy_file_run pyTrueDiv
    rw [if_neg hov]
  show pySlice (pyStrMul messageChars (repetitionsFor (z * 1024 * 1024))) (z * 1024 * 1024) = []
  have hrep : repetitionsFor (z * 1024 * 1024) ≤ 0 := by
    apply repetitionsFor_nonpos
    have h1024 : (0 : ℤ) < 1024 := by norm_num
    nlinarith
  have : (repetitionsFor (z * 1024 * 1024)).toNat = 0 := Int.toNat_eq_zero.2 hrep
  rw [pyStrMul, this]
  show pySlice [] (z * 1024 * 1024) = []
  unfold pySlice
  split <;> simp

/-- Witness for C10 at size -1. -/
theorem zero_or_negative_size_writes_empty_witness :
    create_dummy_file_run "dummy_files/dummy_x.txt" (-1) =
      Except.ok (create_dummy_file "dummy_files/dummy_x.txt" (-1)) ∧
    (create_dummy_file "dummy_files/dummy_x.txt" (-1)).1 = [] ∧
    (create_dummy_file "dummy_files/dummy_x.txt" (-1)).2 =
      pyPrint "dummy_files/dummy_x.txt" (-1) :=
  zero_or_negative_size_writes_empty "dummy_files/dummy_x.txt" (-1) (by decide) (by decide)

/-! ## Correctness of the binary64 division model on the program's range -/

theorem lg2_spec (f : ℕ) : ∀ n : ℕ, 1 ≤ n → n < 2 ^ f →
    2 ^ lg2 f n ≤ n ∧ n < 2 ^ (lg2 f n + 1) := by
  induction f with
  | zero =>
      intro n h1 h2
      norm_num at h2
      omega
  | succ f ih =>
      intro n h1 h2
      by_cases h : 2 ≤ n
      · have hrw : lg2 (f + 1) n = lg2 f (n / 2) + 1 := by simp [lg2, h]
        have hn2 : 1 ≤ n / 2 := by omega
        have hn2' : n / 2 < 2 ^ f := by
          have hp : (2 : ℕ) ^ (f + 1) = 2 ^ f * 2 := by ring
          rw [hp] at h2
          omega
        obtain ⟨ih1, ih2⟩ := ih (n / 2) hn2 hn2'
        rw [hrw]
        constructor
        · have hp : (2 : ℕ) ^ (lg2 f (n / 2) + 1) = 2 * 2 ^ lg2 f (n / 2) := by ring
          rw [hp]
          omega
        · have hp : (2 : ℕ) ^ (lg2 f (n / 2) + 1 + 1) = 2 * 2 ^ (lg2 f (n / 2) + 1) := by
            ring
          rw [hp]
          omega
      · have hrw : lg2 (f + 1) n = 0 := by simp [lg2, h]
        rw [hrw]
        simp only [pow_zero, pow_one, zero_add]
        omega

theorem rneDivN_bound (n d : ℕ) (hd : 0 < d) :
    -(d : ℤ) ≤ 2 * ((rneDivN n d : ℤ) * d - n) ∧
      2 * ((rneDivN n d : ℤ) * d - n) ≤ d := by
  have hd' : (0 : ℤ) < (d : ℤ) := by exact_mod_cast hd
  have hmod : (d : ℤ) * ((n : ℤ) / (d : ℤ)) + (n : ℤ) % (d : ℤ) = (n : ℤ) :=
    Int.ediv_add_emod n d
  have hlt : (n : ℤ) % (d : ℤ) < (d : ℤ) := Int.emod_lt_of_pos _ hd'
  have hge : (0 : ℤ) ≤ (n : ℤ) % (d : ℤ) := Int.emod_nonneg _ (ne_of_gt hd')
  unfold rneDivN
  split_ifs with h1 h2 h3
  · have h1' : 2 * ((n : ℤ) % (d : ℤ)) < (d : ℤ) := by exact_mod_cast h1
    constructor <;> (push_cast; linarith)
  · have h2' : (d : ℤ) < 2 * ((n : ℤ) % (d : ℤ)) := by exact_mod_cast h2
    constructor <;> (push_cast; linarith)
  · have h1' : (d : ℤ) ≤ 2 * ((n : ℤ) % (d : ℤ)) := by
      exact_mod_cast Nat.le_of_not_lt h1
    have h2' : 2 * ((n : ℤ) % (d : ℤ)) ≤ (d : ℤ) := by
      exact_mod_cast Nat.le_of_not_lt h2
    constructor <;> (push_cast; linarith)
  · have h1' : (d : ℤ) ≤ 2 * ((n : ℤ) % (d : ℤ)) := by
      exact_mod_cast Nat.le_of_not_lt h1
    have h2' : 2 * ((n : ℤ) % (d : ℤ)) ≤ (d : ℤ) := by
      exact_mod_cast Nat.le_of_not_lt h2
    constructor <;> (push_cast; linarith)

theorem mathCeil_rne (n e : ℕ) (hlt : n < 2 ^ 53)
    (he1 : 2 ^ e ≤ n / 79) (he2 : n / 79 < 2 ^ (e + 1)) :
    -(-(((rneDivN (n * 2 ^ 52) (79 * 2 ^ e) : ℕ) : ℤ) * 2 ^ e) / 2 ^ 52) =
      -(-(n : ℤ) / 79) := by
  have he52 : e ≤ 52 := by
    by_contra hcon
    push_neg at hcon
    have hp : (2 : ℕ) ^ 53 ≤ 2 ^ e := Nat.pow_le_pow_right (by norm_num) (by omega)
    have hds : n / 79 ≤ n := Nat.div_le_self n 79
    omega
  have hD : 0 < 79 * 2 ^ e := by positivity
  by_cases hr : n % 79 = 0
  · -- 79 divides n: the quotient is an exactly representable integer
    have hd79 : 79 * (n / 79) = n := by omega
    have hfact : n * 2 ^ 52 = (79 * 2 ^ e) * (n / 79 * 2 ^ (52 - e)) := by
      calc n * 2 ^ 52 = (79 * (n / 79)) * 2 ^ 52 := by rw [hd79]
        _ = (79 * (n / 79)) * (2 ^ e * 2 ^ (52 - e)) := by
            have h52 : e + (52 - e) = 52 := by omega
            rw [← pow_add, h52]
        _ = (79 * 2 ^ e) * (n / 79 * 2 ^ (52 - e)) := by ring
    have hmod0 : (n * 2 ^ 52) % (79 * 2 ^ e) = 0 := by
      rw [hfact]
      exact Nat.mul_mod_right _ _
    have hdiv0 : (n * 2 ^ 52) / (79 * 2 ^ e) = n / 79 * 2 ^ (52 - e) := by
      rw [hfact]
      exact Nat.mul_div_cancel_left _ hD
    have hrne : rneDivN (n * 2 ^ 52) (79 * 2 ^ e) = n / 79 * 2 ^ (52 - e) := by
      unfold rneDivN
      rw [hmod0, hdiv0]
      rw [if_pos (by omega)]
    rw [hrne]
    have hcast : ((n / 79 * 2 ^ (52 - e) : ℕ) : ℤ) * 2 ^ e =
        ((n / 79 : ℕ) : ℤ) * 2 ^ 52 := by
      push_cast
      have h52 : 52 - e + e = 52 := by omega
      rw [mul_assoc, ← pow_add, h52]
      norm_num
    rw [hcast]
    have hneg : -(((n / 79 : ℕ) : ℤ) * 2 ^ 52) = (-((n / 79 : ℕ) : ℤ)) * 2 ^ 52 := by
      ring
    rw [hneg, Int.mul_ediv_cancel _ (by norm_num : ((2 : ℤ) ^ 52) ≠ 0)]
    omega
  · -- 79 does not divide n: the rounded quotient stays strictly between
    -- the surrounding integers, so its ceiling is the exact ceiling
    obtain ⟨hb1, hb2⟩ := rneDivN_bound (n * 2 ^ 52) (79 * 2 ^ e) hD
    set M : ℤ := ((rneDivN (n * 2 ^ 52) (79 * 2 ^ e) : ℕ) : ℤ) with hM
    push_cast at hb1 hb2
    have hr1 : 1 ≤ n % 79 := Nat.pos_of_ne_zero hr
    have hr78 : n % 79 ≤ 78 := by omega
    have hnkZ : (79 : ℤ) * ((n / 79 : ℕ) : ℤ) + ((n % 79 : ℕ) : ℤ) = (n : ℤ) := by
      exact_mod_cast Nat.div_add_mod n 79
    have hr1Z : (1 : ℤ) ≤ ((n % 79 : ℕ) : ℤ) := by exact_mod_cast hr1
    have hr78Z : ((n % 79 : ℕ) : ℤ) ≤ 78 := by exact_mod_cast hr78
    have hnZ : (n : ℤ) < 2 ^ 53 := by exact_mod_cast hlt
    have hekZ : (2 : ℤ) ^ e ≤ ((n / 79 : ℕ) : ℤ) := by exact_mod_cast he1
    have hE2 : (79 : ℤ) * 2 ^ e ≤ (n : ℤ) - 1 := by
      have h79k : (79 : ℤ) * 2 ^ e ≤ 79 * ((n / 79 : ℕ) : ℤ) := by linarith
      linarith
    have hC2 : (2 : ℤ) ^ 53 = 2 * 2 ^ 52 := by norm_num
    rw [hC2] at hnZ
    have hrCl : (2 : ℤ) ^ 52 ≤ ((n % 79 : ℕ) : ℤ) * 2 ^ 52 :=
      le_mul_of_one_le_left (by positivity) hr1Z
    have hrCu : ((n % 79 : ℕ) : ℤ) * 2 ^ 52 ≤ 78 * 2 ^ 52 :=
      mul_le_mul_of_nonneg_right hr78Z (by positivity)
    have hX1 : ((n / 79 : ℕ) : ℤ) * 2 ^ 52 < M * 2 ^ e := by
      have h158 : 158 * (((n / 79 : ℕ) : ℤ) * 2 ^ 52) < 158 * (M * 2 ^ e) := by
        linarith
      linarith
    have hX2 : M * 2 ^ e ≤ (((n / 79 : ℕ) : ℤ) + 1) * 2 ^ 52 := by
      have h158 : 158 * (M * 2 ^ e) < 158 * ((((n / 79 : ℕ) : ℤ) + 1) * 2 ^ 52) := by
        linarith
      linarith
    have hC : ((2 : ℤ) ^ 52) = 4503599627370496 := by norm_num
    rw [hC] at hX1 hX2 ⊢
    set P : ℤ := M * 2 ^ e with hPdef
    omega

theorem posDiv_ceil (n : ℕ) (h79 : 79 ≤ n) (hlt : n < 2 ^ 53) :
    mathCeil (posDiv n 79) = -(-(n : ℤ) / 79) := by
  have hk1 : 1 ≤ n / 79 := (Nat.one_le_div_iff (by norm_num)).2 h79
  have hkn : n / 79 ≤ n := Nat.div_le_self n 79
  have hp53 : (2 : ℕ) ^ 53 = 9007199254740992 := by norm_num
  have hp64 : (2 : ℕ) ^ 64 = 18446744073709551616 := by norm_num
  obtain ⟨he1, he2⟩ := lg2_spec 64 (n / 79) hk1 (by omega)
  exact mathCeil_rne n (ilog2 (n / 79)) hlt he1 he2

theorem ceil_intCast_div_natCast (a : ℤ) (d : ℕ) :
    ⌈(a : ℚ) / (d : ℚ)⌉ = -(-a / (d : ℤ)) := by
  have hf := Rat.floor_intCast_div_natCast (-a) d
  rw [Int.cast_neg, neg_div, Int.floor_neg] at hf
  linarith

theorem repAgree (m : ℕ) (h1 : 1 ≤ m) (h2 : m < 2 ^ 33) :
    repetitionsFor ((m : ℤ) * 1024 * 1024) = -(-((m : ℤ) * 1024 * 1024) / 79) := by
  have hz : ((m : ℤ) * 1024 * 1024) = ((m * 1048576 : ℕ) : ℤ) := by push_cast; ring
  rw [hz]
  have h33 : (2 : ℕ) ^ 33 = 8589934592 := by norm_num
  rw [h33] at h2
  have hn79 : 79 ≤ m * 1048576 := by omega
  have hn53 : m * 1048576 < 2 ^ 53 := by
    have hp : (2 : ℕ) ^ 53 = 9007199254740992 := by norm_num
    rw [hp]
    omega
  have hne : ¬(((m * 1048576 : ℕ) : ℤ) = 0) := by
    have hp : (0 : ℤ) < ((m * 1048576 : ℕ) : ℤ) := by
      exact_mod_cast (by omega : 0 < m * 1048576)
    omega
  have hnlt : ¬(((m * 1048576 : ℕ) : ℤ) < 0) := by
    have hp : (0 : ℤ) ≤ ((m * 1048576 : ℕ) : ℤ) := by positivity
    omega
  show mathCeil (floatDiv ((m * 1048576 : ℕ) : ℤ) message_bytes) = _
  rw [message_bytes_eq]
  unfold floatDiv
  rw [if_neg hne, if_neg hnlt, Int.toNat_natCast]
  exact posDiv_ceil (m * 1048576) hn79 hn53

theorem size_le_rep_mul (m : ℕ) (h1 : 1 ≤ m) (h2 : m < 2 ^ 33) :
    m * 1048576 ≤ (repetitionsFor ((m : ℤ) * 1024 * 1024)).toNat * 79 := by
  rw [repAgree m h1 h2]
  omega

/-- C3 (amended): for every positive sizeInMB below `2 ^ 33` — in
particular for every size the program ever uses — `math.ceil` applied to
the correctly rounded float quotient equals the exact mathematical
ceiling of `sizeInMB * 1024 * 1024 / message_bytes`.  (For large enough
sizeInMB this fails; see the counterexample.) -/
theorem repetitions_eq_exact_ceiling (m : ℕ) (h1 : 1 ≤ m) (h2 : m < 2 ^ 33) :
    repetitionsFor ((m : ℤ) * 1024 * 1024) =
      ⌈(((m : ℤ) * 1024 * 1024 : ℤ) : ℚ) / (message_bytes : ℚ)⌉ := by
  rw [repAgree m h1 h2, message_bytes_eq, ceil_intCast_div_natCast]
  norm_num

/-- Witness for C3 (amended) at sizeInMB = 1. -/
theorem repetitions_eq_exact_ceiling_witness :
    repetitionsFor (((1 : ℕ) : ℤ) * 1024 * 1024) =
      ⌈((((1 : ℕ) : ℤ) * 1024 * 1024 : ℤ) : ℚ) / (message_bytes : ℚ)⌉ :=
  repetitions_eq_exact_ceiling 1 (by norm_num) (by norm_num)

/-- C3 as stated (for every positive sizeInMB) is false: at
sizeInMB = 10603200556 the quotient rounds to just below the next
integer, so the code computes one repetition fewer than the exact
ceiling. -/
theorem repetitions_float_counterexample :
    repetitionsFor ((10603200556 : ℤ) * 1024 * 1024) = 140737488939345 ∧
    ⌈(((10603200556 : ℤ) * 1024 * 1024 : ℤ) : ℚ) / (message_bytes : ℚ)⌉ =
      140737488939346 := by
  constructor
  · decide
  · rw [message_bytes_eq, ceil_intCast_div_natCast]
    decide

theorem encode_content_length (p : String) (m : ℕ) (h1 : 1 ≤ m) (h2 : m < 2 ^ 33) :
    (encode (create_dummy_file p (m : ℤ)).1).length = m * 1048576 := by
  rw [create_content_eq]
  rw [encode_length_ascii
    (fun c hc => pyRepeat_ascii messageChars_ascii _ c (List.take_subset _ _ hc))]
  rw [List.length_take, pyRepeat_length, messageChars_length]
  have hs := size_le_rep_mul m h1 h2
  omega

theorem foldl_updLast_of_not_mem {l : List (String × List Char)} {q : String}
    (h : q ∉ l.map Prod.fst) (x : Option (List Char)) :
    l.foldl (updLast q) x = x := by
  induction l generalizing x with
  | nil => rfl
  | cons pc t ih =>
      have hq : q ≠ pc.1 := by
        intro he
        exact h (by simp [he])
      show t.foldl (updLast q) (updLast q x pc) = x
      rw [show updLast q x pc = x from by simp [updLast, hq]]
      exact ih (fun hm => h (by simp [hm])) x

theorem foldl_updLast_of_mem {l : List (String × List Char)} {q : String} {v : List Char}
    (hnd : (l.map Prod.fst).Nodup) (hm : (q, v) ∈ l) :
    l.foldl (updLast q) none = some v := by
  induction l with
  | nil => cases hm
  | cons pc t ih =>
      rw [List.map_cons, List.nodup_cons] at hnd
      obtain ⟨hh, ht⟩ := hnd
      rcases List.mem_cons.1 hm with heq | hmem
      · have hpc1 : pc.1 = q := by rw [← heq]
        have hpc2 : pc.2 = v := by rw [← heq]
        show t.foldl (updLast q) (updLast q none pc) = some v
        rw [show updLast q none pc = some v from by simp [updLast, hpc1, hpc2]]
        exact foldl_updLast_of_not_mem (by rwa [hpc1] at hh) _
      · have hq : q ≠ pc.1 := by
          intro he
          exact hh (by rw [← he]; exact List.mem_map_of_mem Prod.fst hmem)
        show t.foldl (updLast q) (updLast q none pc) = some v
        rw [show updLast q none pc = none from by simp [updLast, hq]]
        exact ih ht hmem

/-- C1: after `run()` completes, the file `dummy_<N>MB.txt` in the output
directory holds, for every N in 1..15, a string whose UTF-8 encoding has
exactly `N * 1048576` bytes. -/
theorem file_size_exact (N : ℕ) (h1 : 1 ≤ N) (h2 : N ≤ 15) (fs : FS) :
    ∃ c, runProgram fs (pathFor N) = some c ∧ (encode c).length = N * 1048576 := by
  refine ⟨(create_dummy_file (pathFor N) (N : ℤ)).1, ?_,
    encode_content_length _ N h1 (by
      have h33 : (2 : ℕ) ^ 33 = 8589934592 := by norm_num
      omega)⟩
  rw [runProgram_apply]
  have hnd : (mainWrites.map Prod.fst).Nodup := by
    have hmw : mainWrites.map Prod.fst = mainSizes.map pathFor := by
      rw [mainWrites, List.map_map]
      rfl
    rw [hmw]
    decide
  have hmem : (pathFor N, (create_dummy_file (pathFor N) (N : ℤ)).1) ∈ mainWrites := by
    have hNs : N ∈ mainSizes := by
      rw [mainSizes]
      exact List.mem_range'_1.2 ⟨h1, by omega⟩
    exact List.mem_map.2 ⟨N, hNs, rfl⟩
  rw [foldl_updLast_of_mem hnd hmem]
  rfl

/-- Witness for C1 at N = 3 on the empty filesystem. -/
theorem file_size_exact_witness :
    ∃ c, runProgram emptyFS (pathFor 3) = some c ∧ (encode c).length = 3 * 1048576 :=
  file_size_exact 3 (by norm_num) (by norm_num) emptyFS

/-- C5: the content written for each N in 1..15 is a prefix of the
unbounded repetition of the message: it equals `(message * k)[:size]`
for every sufficiently large k. -/
theorem content_is_repetition_prefix (p : String) (N : ℕ) (h1 : 1 ≤ N) (h2 : N ≤ 15) :
    ∃ K : ℕ, ∀ k, K ≤ k →
      (create_dummy_file p (N : ℤ)).1 = (pyRepeat messageChars k).take (N * 1048576) := by
  refine ⟨(repetitionsFor ((N : ℤ) * 1024 * 1024)).toNat, ?_⟩
  intro k hk
  rw [create_content_eq]
  have hsize : N * 1048576 ≤ (repetitionsFor ((N : ℤ) * 1024 * 1024)).toNat * 79 :=
    size_le_rep_mul N h1 (by
      have h33 : (2 : ℕ) ^ 33 = 8589934592 := by norm_num
      omega)
  have hsplit : pyRepeat messageChars k =
      pyRepeat messageChars (repetitionsFor ((N : ℤ) * 1024 * 1024)).toNat ++
        pyRepeat messageChars (k - (repetitionsFor ((N : ℤ) * 1024 * 1024)).toNat) := by
    rw [← pyRepeat_add]
    congr 1
    omega
  rw [hsplit, List.take_append_of_le_length]
  rw [pyRepeat_length, messageChars_length]
  omega

/-- Witness for C5 at N = 1. -/
theorem content_is_repetition_prefix_witness :
    ∃ K : ℕ, ∀ k, K ≤ k →
      (create_dummy_file "dummy_files/dummy_1MB.txt" ((1 : ℕ) : ℤ)).1 =
        (pyRepeat messageChars k).take (1 * 1048576) :=
  content_is_repetition_prefix "dummy_files/dummy_1MB.txt" 1 (by norm_num) (by norm_num)

theorem pyRepeat_one {α : Type} (s : List α) : pyRepeat s 1 = s := by
  simp [pyRepeat]

theorem encode_pyRepeat (s : List Char) (n : ℕ) :
    encode (pyRepeat s n) = pyRepeat (encode s) n := by
  induction n with
  | zero => rfl
  | succ k ih => simp [pyRepeat, encode_append, ih]

/-- C2 as stated is false: the UTF-8 encoded length of the message is 79
bytes, not 81, and 1048576 mod 81 is 31, not 75. -/
theorem message_length_not_81 :
    message_bytes = 79 ∧ message_bytes ≠ 81 ∧ (1048576 : ℕ) % 81 = 31 := by decide

/-- C2 (amended): `createFile("dummy_files/dummy_1MB.txt", 1)` writes a
string of exactly 1,048,576 UTF-8 bytes; the message's encoded length is
79 bytes; the first 79 bytes equal the encoded message, and the last
partial repetition (after 13273 full copies, i.e. from byte
13273 * 79 = 1048567 on) is the message truncated at byte
1048576 mod 79 = 9. -/
theorem one_mb_file_structure :
    (encode (create_dummy_file "dummy_files/dummy_1MB.txt" 1).1).length = 1048576 ∧
    (encode (create_dummy_file "dummy_files/dummy_1MB.txt" 1).1).take 79 =
      encode messageChars ∧
    (encode (create_dummy_file "dummy_files/dummy_1MB.txt" 1).1).drop 1048567 =
      (encode messageChars).take 9 ∧
    message_bytes = 79 ∧ (1048576 : ℕ) % 79 = 9 := by
  have hone : (1 : ℤ) = ((1 : ℕ) : ℤ) := by norm_num
  rw [hone]
  have hrep : repetitionsFor (((1 : ℕ) : ℤ) * 1024 * 1024) = 13274 := by
    have harg : (((1 : ℕ) : ℤ) * 1024 * 1024) = 1048576 := by norm_num
    rw [harg]
    decide
  have hc := create_content_eq "dummy_files/dummy_1MB.txt" 1
  rw [hrep] at hc
  rw [show ((13274 : ℤ)).toNat = 13274 from rfl,
    show 1 * 1048576 = 1048576 from rfl] at hc
  rw [hc]
  have hasc : ∀ c ∈ pyRepeat messageChars 13274, c.toNat < 128 :=
    pyRepeat_ascii messageChars_ascii _
  rw [encode_take hasc, encode_pyRepeat]
  have hE : (encode messageChars).length = 79 := message_bytes_eq
  refine ⟨?_, ?_, ?_, message_bytes_eq, by norm_num⟩
  · rw [List.length_take, pyRepeat_length, hE]
    omega
  · rw [List.take_take]
    have hmin : (79 : ℕ) ⊓ 1048576 = 79 := by norm_num
    rw [hmin]
    have hsplit1 : pyRepeat (encode messageChars) 13274 =
        encode messageChars ++ pyRepeat (encode messageChars) 13273 := by
      rw [show (13274 : ℕ) = 1 + 13273 from by norm_num, pyRepeat_add, pyRepeat_one]
    rw [hsplit1, ← hE, List.take_left]
  · rw [List.drop_take]
    have hsub : (1048576 : ℕ) - 1048567 = 9 := by norm_num
    rw [hsub]
    have hsplit2 : pyRepeat (encode messageChars) 13274 =
        pyRepeat (encode messageChars) 13273 ++ encode messageChars := by
      rw [show (13274 : ℕ) = 13273 + 1 from by norm_num, pyRepeat_add, pyRepeat_one]
    rw [hsplit2]
    have hlen : (pyRepeat (encode messageChars) 13273).length = 1048567 := by
      rw [pyRepeat_length, hE]
    rw [show (1048567 : ℕ) = (pyRepeat (encode messageChars) 13273).length from
      hlen.symm, List.drop_left]
